import Mathlib

/-!
# Verification of the Smart-Weight-Scale streaming analytics pipeline

Shallow embedding of the repository's core modules:

* `DataManager` (src/js/data-manager.js): recording-session state machine,
  force/RFD histories, RFD estimation (windowed regression + exponential
  smoothing), unit conversion, derived statistics.
* `TindeqDevice._handleDataNotification` (src/js/tindeq-api.js): the
  notification-frame decoder.

Numbers are modelled by `ℚ` (the JavaScript code uses IEEE doubles; all
claims under study are about exact arithmetic structure, guards and data
flow, which the rational embedding preserves).  JavaScript division is
guarded in the source wherever it occurs, and `ℚ` division by zero is `0`,
matching the guarded value.
-/

namespace SWS

/-- A point of `forceHistory`: `{ time, force }` (data-manager.js line 72). -/
structure ForcePoint where
  time : ℚ
  force : ℚ
  deriving DecidableEq, Repr

/-- A point of `rfdHistory`: `{ time, rfd }` (data-manager.js lines 89, 148). -/
structure RFDPoint where
  time : ℚ
  rfd : ℚ
  deriving DecidableEq, Repr

/-- The three supported weight units (`'kg'`, `'lbs'`, `'N'`). -/
inductive WUnit where
  | kg
  | lbs
  | newton
  deriving DecidableEq, Repr

/-- Conversion factors, data-manager.js lines 31-38 (exact decimal literals). -/
def kgToLbs : ℚ := 220462 / 100000
def kgToN : ℚ := 980665 / 100000
def lbsToKg : ℚ := 453592 / 1000000
def lbsToN : ℚ := 444822 / 100000
def nToKg : ℚ := 101972 / 1000000
def nToLbs : ℚ := 224809 / 1000000

/-- Embeds `DataManager.convertValue(value, fromUnit, toUnit)`,
data-manager.js lines 233-247.  The final fallthrough (unsupported pair)
returns the value unchanged; with three units it is unreachable after the
equality guard, but is kept for faithfulness. -/
def convertValue (value : ℚ) (fromUnit toUnit : WUnit) : ℚ :=
  if fromUnit = toUnit then value
  else
    match fromUnit, toUnit with
    | .kg, .lbs => value * kgToLbs
    | .kg, .newton => value * kgToN
    | .lbs, .kg => value * lbsToKg
    | .lbs, .newton => value * lbsToN
    | .newton, .kg => value * nToKg
    | .newton, .lbs => value * nToLbs
    | _, _ => value

/-- The mutable state of `DataManager` (data-manager.js constructor,
lines 6-39). -/
structure DataManager where
  currentForce : ℚ
  peakForce : ℚ
  forceHistory : List ForcePoint
  currentRFD : ℚ
  peakRFD : ℚ
  rfdHistory : List RFDPoint
  rfdWindow : ℚ
  rfdSmoothingFactor : ℚ
  isRecording : Bool
  recordingStartTime : ℚ
  weightUnit : WUnit
  targetForce : ℚ
  maxForceRange : ℚ
  maxRFDRange : ℚ
  deriving Repr

namespace DataManager

/-- The constructor's initial state (data-manager.js lines 7-39). -/
def init : DataManager where
  currentForce := 0
  peakForce := 0
  forceHistory := []
  currentRFD := 0
  peakRFD := 0
  rfdHistory := []
  rfdWindow := 1 / 10
  rfdSmoothingFactor := 3 / 10
  isRecording := false
  recordingStartTime := 0
  weightUnit := .kg
  targetForce := 100
  maxForceRange := 150
  maxRFDRange := 1000

/-- Embeds `startRecording()`, data-manager.js lines 44-51.  `now` stands for the
`Date.now()` reading (milliseconds). -/
def startRecording (dm : DataManager) (now : ℚ) : DataManager :=
  { dm with
    recordingStartTime := now
    isRecording := true
    forceHistory := []
    rfdHistory := []
    peakRFD := 0 }

/-- Embeds `stopRecording()`, data-manager.js lines 56-59 (the returned snapshot is
the histories of the resulting state). -/
def stopRecording (dm : DataManager) : DataManager :=
  { dm with isRecording := false }

/-- The backward scan of data-manager.js lines 96-104: walk the history from
its last index downward, pushing every point with
`currentTime - point.time <= rfdWindow`, and `break` at the first failure.
The result lists the collected points most-recent first. -/
def recentPoints (history : List ForcePoint) (currentTime window : ℚ) : List ForcePoint :=
  history.reverse.takeWhile (fun p => decide (currentTime - p.time ≤ window))

/-- The raw (pre-smoothing) RFD of data-manager.js lines 94-133: the
two-point fallback when the window holds fewer than 2 points (lines
106-115), otherwise the least-squares slope over the windowed points
(lines 116-133).  `history` is `forceHistory` *after* the current point has
been pushed; the fallback's `forceHistory[length - 2]` is the second
element of the reversed history (the branch is only reached with at least
two points in history, so the `[]`/singleton defaults are dead). -/
def rawRFD (history : List ForcePoint) (currentTime currentForce window : ℚ) : ℚ :=
  let recent := recentPoints history currentTime window
  if recent.length < 2 then
    match history.reverse.get? 1 with
    | some prevPoint =>
      let deltaForce := currentForce - prevPoint.force
      let deltaTime := currentTime - prevPoint.time
      if deltaTime > 0 then deltaForce / deltaTime else 0
    | none => 0
  else
    let pts := recent.mergeSort (fun a b => decide (a.time ≤ b.time))
    let n : ℚ := pts.length
    let sumX := (pts.map (fun p => p.time)).sum
    let sumY := (pts.map (fun p => p.force)).sum
    let sumXY := (pts.map (fun p => p.time * p.force)).sum
    let sumXX := (pts.map (fun p => p.time * p.time)).sum
    (n * sumXY - sumX * sumY) / (n * sumXX - sumX * sumX)

/-- Embeds `_calculateRFD(currentTime, currentForce)`, data-manager.js lines
86-149, acting on a state whose `forceHistory` already contains the
current point. -/
def calculateRFD (dm : DataManager) (currentTime currentForce : ℚ) : DataManager :=
  if dm.forceHistory.length < 2 then
    { dm with
      rfdHistory := dm.rfdHistory ++ [⟨currentTime, 0⟩]
      currentRFD := 0 }
  else
    let raw := rawRFD dm.forceHistory currentTime currentForce dm.rfdWindow
    let smoothed :=
      match dm.rfdHistory.getLast? with
      | some prev => dm.rfdSmoothingFactor * raw + (1 - dm.rfdSmoothingFactor) * prev.rfd
      | none => raw
    { dm with
      currentRFD := smoothed
      peakRFD := if smoothed > dm.peakRFD then smoothed else dm.peakRFD
      rfdHistory := dm.rfdHistory ++ [⟨currentTime, smoothed⟩] }

/-- Embeds `addForceDataPoint(force)`, data-manager.js lines 66-78.  `now` is the
`Date.now()` reading; the elapsed time is `(now - recordingStartTime)/1000`
seconds.  Returns the updated state and the value returned to the caller. -/
def addForceDataPoint (dm : DataManager) (now force : ℚ) : DataManager × ℚ :=
  if dm.isRecording then
    let timeElapsed := (now - dm.recordingStartTime) / 1000
    let dm1 := { dm with forceHistory := dm.forceHistory ++ [⟨timeElapsed, force⟩] }
    (calculateRFD dm1 timeElapsed force, timeElapsed)
  else
    (dm, 0)

/-- Embeds `updateForce(force)`, data-manager.js lines 155-161. -/
def updateForce (dm : DataManager) (force : ℚ) : DataManager :=
  { dm with
    currentForce := force
    peakForce := if force > dm.peakForce then force else dm.peakForce }

/-- Embeds `reset()`, data-manager.js lines 174-182.  Note that it does not write
`isRecording`. -/
def reset (dm : DataManager) : DataManager :=
  { dm with
    currentForce := 0
    peakForce := 0
    forceHistory := []
    currentRFD := 0
    peakRFD := 0
    rfdHistory := [] }

/-- Embeds `changeUnit(newUnit)`, data-manager.js lines 188-224.  The source wraps
each history `map` in a non-empty check; mapping an empty list is the empty
list, so the guard is reproduced literally. -/
def changeUnit (dm : DataManager) (newUnit : WUnit) : DataManager :=
  if newUnit = dm.weightUnit then dm
  else
    let oldUnit := dm.weightUnit
    { dm with
      currentForce := convertValue dm.currentForce oldUnit newUnit
      peakForce := convertValue dm.peakForce oldUnit newUnit
      targetForce := convertValue dm.targetForce oldUnit newUnit
      maxForceRange := convertValue dm.maxForceRange oldUnit newUnit
      forceHistory :=
        if dm.forceHistory.length > 0 then
          dm.forceHistory.map (fun p => ⟨p.time, convertValue p.force oldUnit newUnit⟩)
        else dm.forceHistory
      currentRFD := convertValue dm.currentRFD oldUnit newUnit
      peakRFD := convertValue dm.peakRFD oldUnit newUnit
      maxRFDRange := convertValue dm.maxRFDRange oldUnit newUnit
      rfdHistory :=
        if dm.rfdHistory.length > 0 then
          dm.rfdHistory.map (fun p => ⟨p.time, convertValue p.rfd oldUnit newUnit⟩)
        else dm.rfdHistory
      weightUnit := newUnit }

/-- Embeds `getImpulse()`, data-manager.js lines 275-286: fold of the trapezoid
areas over consecutive history points, `0` for at most one point. -/
def getImpulse (dm : DataManager) : ℚ :=
  if dm.forceHistory.length ≤ 1 then 0
  else
    (dm.forceHistory.zip dm.forceHistory.tail).foldl
      (fun acc pq =>
        let dt := pq.2.time - pq.1.time
        let avgForce := (pq.2.force + pq.1.force) / 2
        acc + avgForce * dt)
      0

/-- Embeds `getTimeToPeak()`, data-manager.js lines 292-306: scan with
accumulator `(maxForce, maxForceTime)` initialised to `(0, 0)`, updating on
a strict increase. -/
def getTimeToPeak (dm : DataManager) : ℚ :=
  if dm.forceHistory.length = 0 then 0
  else
    (dm.forceHistory.foldl
      (fun acc p => if p.force > acc.1 then (p.force, p.time) else acc)
      ((0 : ℚ), (0 : ℚ))).2

/-- Embeds `getTimeToPeakRFD()`, data-manager.js lines 312-326. -/
def getTimeToPeakRFD (dm : DataManager) : ℚ :=
  if dm.rfdHistory.length = 0 then 0
  else
    (dm.rfdHistory.foldl
      (fun acc p => if p.rfd > acc.1 then (p.rfd, p.time) else acc)
      ((0 : ℚ), (0 : ℚ))).2

end DataManager

/-! ## Frame decoder (`TindeqDevice._handleDataNotification`, tindeq-api.js)

A notification payload is a byte sequence, modelled as a `List ℕ`.
`DataView` accesses throw on out-of-bounds indices, so every read is
modelled in `Option`: a `none` read propagates to a `none` overall result,
standing for an exception escaping the decode logic (in the source it
would land in the surrounding `catch`).  `getFloat32` is modelled by its
little-endian 32-bit payload word: the claims under study concern layout,
counts and totality, not IEEE semantics. -/

/-- Embeds `dataView.getUint8(i)`. -/
def getU8 (b : List ℕ) (i : ℕ) : Option ℕ := b.get? i

/-- Embeds `dataView.getUint32(i, true)`: little-endian 32-bit read; also the raw
word of `dataView.getFloat32(i, true)`. -/
def getU32le (b : List ℕ) (i : ℕ) : Option ℕ :=
  match b.get? i, b.get? (i + 1), b.get? (i + 2), b.get? (i + 3) with
  | some b0, some b1, some b2, some b3 =>
    some (b0 + 256 * b1 + 65536 * b2 + 16777216 * b3)
  | _, _, _, _ => none

/-- One decoded weight sample: the raw little-endian word of the 4-byte
float force, and the 4-byte unsigned timestamp. -/
structure Sample where
  forceBits : ℕ
  timestamp : ℕ
  deriving DecidableEq, Repr

/-- Embeds the `TindeqDevice.RESPONSES` codes (tindeq-api.js lines 22-26). -/
def RESPONSE_BATTERY : ℕ := 0x00
def RESPONSE_WEIGHT : ℕ := 0x01
def RESPONSE_LOW_BATTERY : ℕ := 0x04

/-- Outcome of one notification, abstracting the callback side effects:
`weight samples` collects the `onWeightUpdate(weight, timestamp)` calls in
order, `battery` the `onBatteryUpdate` argument. `invalid` covers the
logged-and-dropped malformed frames, `tooShort` the initial
`byteLength < 1` early return. -/
inductive NotifyResult where
  | weight (samples : List Sample)
  | battery (milliVolts : ℕ)
  | lowBattery
  | invalid
  | unknown (code : ℕ)
  | tooShort
  deriving DecidableEq, Repr

/-- The batched-sample loop of tindeq-api.js lines 249-265: for each
`i < count`, with `offset = 2 + i*8`, read the sample when
`offset + 8 <= byteLength`, otherwise log and skip. -/
def decodeBatch (b : List ℕ) (count : ℕ) : Option (List Sample) :=
  (List.range count).foldl
    (fun acc i => do
      let samples ← acc
      let offset := 2 + i * 8
      if offset + 8 ≤ b.length then
        let w ← getU32le b offset
        let ts ← getU32le b (offset + 4)
        pure (samples ++ [⟨w, ts⟩])
      else
        pure samples)
    (some [])

/-- Embeds `TindeqDevice._handleDataNotification`, tindeq-api.js lines 228-309,
restricted to its pure decode behaviour. -/
def handleDataNotification (b : List ℕ) : Option NotifyResult := do
  if b.length < 1 then
    pure .tooShort
  else
    let responseCode ← getU8 b 0
    if responseCode = RESPONSE_WEIGHT then
      if 2 ≤ b.length then
        let count ← getU8 b 1
        let samples ← decodeBatch b count
        pure (.weight samples)
      else if 9 ≤ b.length then
        let w ← getU32le b 1
        let ts ← getU32le b 5
        pure (.weight [⟨w, ts⟩])
      else
        pure .invalid
    else if responseCode = RESPONSE_BATTERY then
      if 5 ≤ b.length then
        let mv ← getU32le b 1
        pure (.battery mv)
      else
        pure .invalid
    else if responseCode = RESPONSE_LOW_BATTERY then
      pure .lowBattery
    else
      pure (.unknown responseCode)

/-- The same decoder with the legacy single-sample branch
(tindeq-api.js lines 266-275) deleted: a weight frame shorter than 2 bytes
goes straight to the invalid-format warning. -/
def handleDataNotificationNoLegacy (b : List ℕ) : Option NotifyResult := do
  if b.length < 1 then
    pure .tooShort
  else
    let responseCode ← getU8 b 0
    if responseCode = RESPONSE_WEIGHT then
      if 2 ≤ b.length then
        let count ← getU8 b 1
        let samples ← decodeBatch b count
        pure (.weight samples)
      else
        pure .invalid
    else if responseCode = RESPONSE_BATTERY then
      if 5 ≤ b.length then
        let mv ← getU32le b 1
        pure (.battery mv)
      else
        pure .invalid
    else if responseCode = RESPONSE_LOW_BATTERY then
      pure .lowBattery
    else
      pure (.unknown responseCode)

/-! ## Derived pipeline definitions -/

namespace DataManager

/-- Embeds the per-sample handling of one decoded force value by the
coordinator (main.js lines 96 and 105, `_processNewForceValue` in the
variant): `updateForce(force)` followed, while recording, by
`addForceDataPoint(force)`. -/
def processSample (dm : DataManager) (now force : ℚ) : DataManager :=
  ((dm.updateForce force).addForceDataPoint now force).1

/-- One public operation on the `DataManager` state. -/
inductive Op where
  | start (now : ℚ)
  | stop
  | sample (now force : ℚ)
  | update (force : ℚ)
  | wipe
  | changeU (u : WUnit)
  deriving Repr

/-- Applies one operation to a state. -/
def applyOp (dm : DataManager) : Op → DataManager
  | .start now => dm.startRecording now
  | .stop => dm.stopRecording
  | .sample now force => (dm.addForceDataPoint now force).1
  | .update force => dm.updateForce force
  | .wipe => dm.reset
  | .changeU u => dm.changeUnit u

/-- Runs a sequence of operations from the constructor's initial state;
its results are exactly the reachable `DataManager` states. -/
def runOps (ops : List Op) : DataManager :=
  ops.foldl applyOp init

/-- States the history-correspondence invariant: the two histories carry
the same times, index by index (hence also the same length). -/
def histAligned (dm : DataManager) : Prop :=
  dm.forceHistory.map (fun p => p.time) = dm.rfdHistory.map (fun p => p.time)

end DataManager

/-- Trapezoidal sum over consecutive samples, written as the spec writes
it: the sum over `i` of `(force[i] + force[i-1]) / 2 * (time[i] - time[i-1])`. -/
def trapSum : List ForcePoint → ℚ
  | p :: q :: rest => (q.force + p.force) / 2 * (q.time - p.time) + trapSum (q :: rest)
  | _ => 0

/-- An evenly sampled constant-force history: `N + 1` samples of force `F`
spaced `d` seconds apart starting at `t0` (total duration `N * d`). -/
def evenConstHistory (N : ℕ) (t0 d F : ℚ) : List ForcePoint :=
  (List.range (N + 1)).map (fun i : ℕ => ⟨t0 + (i : ℚ) * d, F⟩)

/-- Concrete truncated batch frame: weight tag, declared count 2, one full
8-byte sample window, then 3 bytes of garbage (spec §8 scenario). -/
def truncatedFrame : List ℕ :=
  [1, 2] ++ [1, 0, 0, 0, 2, 0, 0, 0] ++ [9, 9, 9]

/-- Concrete session: fresh start at clock 0, then samples `(0 ms, 0)` and
`(1000 ms, 10)` — the second sample triggers the session's first raw RFD
computation. -/
def twoSampleState : DataManager :=
  DataManager.processSample
    (DataManager.processSample (DataManager.init.startRecording 0) 0 0) 1000 10

/-- Concrete mid-session state as `_calculateRFD` sees it on the second
sample: the current point `(1, 10)` already pushed, one recorded RFD point. -/
def midState : DataManager :=
  { DataManager.init with
    forceHistory := [⟨0, 0⟩, ⟨1, 10⟩]
    rfdHistory := [⟨0, 0⟩] }

/-- Concrete evenly-sampled constant-force session: force `7` at times
`0, 1, 2, 3`. -/
def evenState : DataManager :=
  { DataManager.init with forceHistory := evenConstHistory 3 0 1 7 }

/-- Concrete state whose only history point has a negative force. -/
def negPeakState : DataManager :=
  { DataManager.init with forceHistory := [⟨5, -3⟩] }

/-- Concrete state with a tied positive maximum reached first at time 3. -/
def tiedPeakState : DataManager :=
  { DataManager.init with
    forceHistory := [⟨1, 2⟩, ⟨3, 5⟩, ⟨4, 5⟩]
    rfdHistory := [⟨1, 2⟩, ⟨3, 5⟩, ⟨4, 5⟩] }

/-! ## Theorems -/

open DataManager

/-- C4, counterexample: calling `reset()` while recording leaves
`isRecording` true — `reset` never writes the flag, so it does not force
the Idle state as claimed. -/
theorem reset_keeps_recording_cex :
    ((DataManager.init.startRecording 0).reset).isRecording = true := rfl

/-- C4 (amended): after `reset()` the histories are empty and
`currentForce`, `peakForce`, `currentRFD`, `peakRFD` are zero, but
`isRecording` is left exactly as it was — `reset` does not move the
session to Idle. -/
theorem reset_clears_data (dm : DataManager) :
    dm.reset.forceHistory = [] ∧ dm.reset.rfdHistory = [] ∧
    dm.reset.currentForce = 0 ∧ dm.reset.peakForce = 0 ∧
    dm.reset.currentRFD = 0 ∧ dm.reset.peakRFD = 0 ∧
    dm.reset.isRecording = dm.isRecording :=
  ⟨rfl, rfl, rfl, rfl, rfl, rfl, rfl⟩

/-- C10: the legacy single-sample branch of `_handleDataNotification` is
dead code — it requires `byteLength < 2` and `byteLength >= 9` at once —
so the decoder with that branch removed agrees with the full decoder on
every input byte sequence. -/
theorem handleDataNotification_eq_noLegacy (b : List ℕ) :
    handleDataNotification b = handleDataNotificationNoLegacy b := by
  unfold handleDataNotification handleDataNotificationNoLegacy
  by_cases h1 : b.length < 1
  · simp [h1]
  · by_cases h2 : 2 ≤ b.length
    · simp [h1, h2]
    · have h9 : ¬ 9 ≤ b.length := by omega
      simp [h1, h2, h9]

/-- C6: whenever the backward scan collects fewer than 2 points inside the
RFD window, the raw RFD is the two-point slope
`(currentForce - prev.force) / (currentTime - prev.time)` against the
immediately preceding history point, and a non-positive time delta yields
`0` instead of a division. -/
theorem rawRFD_fallback (history : List ForcePoint) (t f w : ℚ)
    (prevPoint : ForcePoint)
    (hprev : history.reverse.get? 1 = some prevPoint)
    (hwin : (recentPoints history t w).length < 2) :
    rawRFD history t f w =
      (if t - prevPoint.time > 0 then (f - prevPoint.force) / (t - prevPoint.time) else 0) ∧
    (t - prevPoint.time ≤ 0 → rawRFD history t f w = 0) := by
  have hmain : rawRFD history t f w =
      (if t - prevPoint.time > 0 then (f - prevPoint.force) / (t - prevPoint.time) else 0) := by
    simp only [rawRFD, if_pos hwin, hprev]
  refine ⟨hmain, fun hle => ?_⟩
  rw [hmain, if_neg (not_lt.mpr hle)]

/-- C6, witness: history `[(0,0), (1,5)]` at time `1`, force `5`, window
`0.1`: only the current point lies in the window, and the fallback slope is
`(5 - 0) / (1 - 0)`. -/
theorem rawRFD_fallback_witness :
    ([⟨0, 0⟩, ⟨1, 5⟩] : List ForcePoint).reverse.get? 1 = some ⟨0, 0⟩ ∧
    (recentPoints [⟨0, 0⟩, ⟨1, 5⟩] 1 (1 / 10)).length < 2 ∧
    (rawRFD [⟨0, 0⟩, ⟨1, 5⟩] 1 5 (1 / 10) =
      (if (1 : ℚ) - (0 : ℚ) > 0 then ((5 : ℚ) - (0 : ℚ)) / ((1 : ℚ) - (0 : ℚ)) else 0) ∧
      ((1 : ℚ) - (0 : ℚ) ≤ 0 → rawRFD [⟨0, 0⟩, ⟨1, 5⟩] 1 5 (1 / 10) = 0)) :=
  ⟨rfl, by norm_num [recentPoints, List.takeWhile],
    rawRFD_fallback [⟨0, 0⟩, ⟨1, 5⟩] 1 5 (1 / 10) ⟨0, 0⟩ rfl
      (by norm_num [recentPoints, List.takeWhile])⟩

/-- C2, counterexample: in a fresh session fed samples `(0 s, 0)` and
`(1 s, 10)`, the second sample performs the session's first raw RFD
computation (raw value `10`), yet the emitted value is `3 = 0.3 * 10`:
smoothing *is* applied against the zero recorded for the first sample, so
the first raw RFD is not emitted unsmoothed. -/
theorem firstRFD_smoothed_cex :
    rawRFD twoSampleState.forceHistory 1 10 twoSampleState.rfdWindow = 10 ∧
    twoSampleState.rfdHistory = [⟨0, 0⟩, ⟨1, 3⟩] ∧
    twoSampleState.currentRFD = 3 ∧
    twoSampleState.currentRFD ≠
      rawRFD twoSampleState.forceHistory 1 10 twoSampleState.rfdWindow := by
  refine ⟨?_, ?_, ?_, ?_⟩ <;>
    norm_num [twoSampleState, processSample, addForceDataPoint, updateForce,
      startRecording, init, calculateRFD, rawRFD, recentPoints, List.takeWhile]

/-- C2 (amended): every RFD computation that reaches the raw-RFD stage has
a previous `rfdHistory` entry (the first sample records a zero), and the
emitted value always equals
`alpha * raw + (1 - alpha) * previousEntry.rfd`; in particular the first
raw RFD of a session is emitted as `alpha * raw`, not `raw` unsmoothed. -/
theorem calculateRFD_always_smooths (dm : DataManager) (t f : ℚ) (prev : RFDPoint)
    (hlen : 2 ≤ dm.forceHistory.length)
    (hlast : dm.rfdHistory.getLast? = some prev) :
    (dm.calculateRFD t f).currentRFD =
      dm.rfdSmoothingFactor * rawRFD dm.forceHistory t f dm.rfdWindow
        + (1 - dm.rfdSmoothingFactor) * prev.rfd ∧
    (dm.calculateRFD t f).rfdHistory =
      dm.rfdHistory ++
        [⟨t, dm.rfdSmoothingFactor * rawRFD dm.forceHistory t f dm.rfdWindow
            + (1 - dm.rfdSmoothingFactor) * prev.rfd⟩] := by
  have h2 : ¬ dm.forceHistory.length < 2 := by omega
  constructor <;> simp [calculateRFD, h2, hlast]

/-- C2, witness: on the concrete mid-session state the emitted value is
`0.3 * raw + 0.7 * 0`. -/
theorem calculateRFD_always_smooths_witness :
    2 ≤ midState.forceHistory.length ∧
    midState.rfdHistory.getLast? = some ⟨0, 0⟩ ∧
    ((midState.calculateRFD 1 10).currentRFD =
      midState.rfdSmoothingFactor * rawRFD midState.forceHistory 1 10 midState.rfdWindow
        + (1 - midState.rfdSmoothingFactor) * (⟨0, 0⟩ : RFDPoint).rfd ∧
    (midState.calculateRFD 1 10).rfdHistory =
      midState.rfdHistory ++
        [⟨1, midState.rfdSmoothingFactor * rawRFD midState.forceHistory 1 10 midState.rfdWindow
            + (1 - midState.rfdSmoothingFactor) * (⟨0, 0⟩ : RFDPoint).rfd⟩]) :=
  ⟨by norm_num [midState], rfl,
    calculateRFD_always_smooths midState 1 10 ⟨0, 0⟩ (by norm_num [midState]) rfl⟩

/-- Any `_calculateRFD` call leaves `forceHistory` untouched. -/
theorem calculateRFD_forceHistory (dm : DataManager) (t f : ℚ) :
    (dm.calculateRFD t f).forceHistory = dm.forceHistory := by
  unfold calculateRFD
  split <;> rfl

/-- Any `_calculateRFD` call appends exactly one point, stamped with the
triggering time, to `rfdHistory`. -/
theorem calculateRFD_rfdHistory (dm : DataManager) (t f : ℚ) :
    ∃ x : ℚ, (dm.calculateRFD t f).rfdHistory = dm.rfdHistory ++ [⟨t, x⟩] := by
  unfold calculateRFD
  split
  · exact ⟨0, rfl⟩
  · exact ⟨_, rfl⟩

/-- Every public operation preserves the history-correspondence invariant. -/
theorem histAligned_applyOp (dm : DataManager) (op : Op) (h : histAligned dm) :
    histAligned (applyOp dm op) := by
  cases op with
  | start now => simp [applyOp, startRecording, histAligned]
  | stop => simpa [applyOp, stopRecording, histAligned] using h
  | sample now force =>
    simp only [applyOp, addForceDataPoint]
    split
    · obtain ⟨x, hx⟩ :=
        calculateRFD_rfdHistory
          { dm with forceHistory :=
              dm.forceHistory ++ [⟨(now - dm.recordingStartTime) / 1000, force⟩] }
          ((now - dm.recordingStartTime) / 1000) force
      unfold histAligned
      dsimp only
      rw [calculateRFD_forceHistory, hx]
      unfold histAligned at h
      simp only [List.map_append, List.map_cons, List.map_nil]
      rw [h]
    · exact h
  | update force => simpa [applyOp, updateForce, histAligned] using h
  | wipe => simp [applyOp, reset, histAligned]
  | changeU u =>
    simp only [applyOp, changeUnit]
    by_cases hu : u = dm.weightUnit
    · simpa [hu] using h
    · unfold histAligned at h ⊢
      simp only [hu, if_false]
      have e1 :
          ((if dm.forceHistory.length > 0 then
              dm.forceHistory.map
                (fun p => ⟨p.time, convertValue p.force dm.weightUnit u⟩)
            else dm.forceHistory).map (fun p => p.time))
            = dm.forceHistory.map (fun p => p.time) := by
        split <;> simp [List.map_map, Function.comp]
      have e2 :
          ((if dm.rfdHistory.length > 0 then
              dm.rfdHistory.map
                (fun p => ⟨p.time, convertValue p.rfd dm.weightUnit u⟩)
            else dm.rfdHistory).map (fun p => p.time))
            = dm.rfdHistory.map (fun p => p.time) := by
        split <;> simp [List.map_map, Function.comp]
      simpa [e1, e2] using h

/-- The invariant holds along any fold of operations. -/
theorem histAligned_foldl (ops : List Op) (dm : DataManager) (h : histAligned dm) :
    histAligned (ops.foldl applyOp dm) := by
  induction ops generalizing dm with
  | nil => exact h
  | cons op rest ih => exact ih _ (histAligned_applyOp dm op h)

/-- Helper: an if-greater update is a `max`. -/
theorem ifGt_eq_max (a b : ℚ) : (if b > a then b else a) = max a b := by
  by_cases h : b > a
  · simp [h, max_eq_right h.le]
  · simp [h, max_eq_left (not_lt.mp h)]

/-- Helper: a left fold by `max` never drops below its seed. -/
theorem le_foldl_max (l : List ℚ) (a : ℚ) : a ≤ l.foldl max a := by
  induction l generalizing a with
  | nil => exact le_refl a
  | cons x xs ih => exact le_trans (le_max_left a x) (ih (max a x))

/-- Tracking `peakForce`: `updateForce` takes a running maximum. -/
theorem updateForce_peakForce (dm : DataManager) (f : ℚ) :
    (dm.updateForce f).peakForce = max dm.peakForce f := by
  simp only [updateForce]
  exact ifGt_eq_max dm.peakForce f

/-- A `_calculateRFD` call never touches `peakForce`. -/
theorem calculateRFD_peakForce (dm : DataManager) (t f : ℚ) :
    (dm.calculateRFD t f).peakForce = dm.peakForce := by
  unfold calculateRFD
  split <;> rfl

/-- An `addForceDataPoint` call never touches `peakForce`. -/
theorem addForceDataPoint_peakForce (dm : DataManager) (now f : ℚ) :
    ((dm.addForceDataPoint now f).1).peakForce = dm.peakForce := by
  unfold addForceDataPoint
  split
  · dsimp only
    rw [calculateRFD_peakForce]
  · rfl

/-- Per-sample processing updates `peakForce` by a running maximum. -/
theorem processSample_peakForce (dm : DataManager) (now f : ℚ) :
    (dm.processSample now f).peakForce = max dm.peakForce f := by
  unfold processSample
  rw [addForceDataPoint_peakForce, updateForce_peakForce]

/-- States the incremental-peak invariant for RFD: `peakRFD` is the fold of
`max` over the recorded RFD values, seeded with `0`. -/
def peakRFDOk (dm : DataManager) : Prop :=
  dm.peakRFD = (dm.rfdHistory.map (fun p => p.rfd)).foldl max 0

/-- A `_calculateRFD` call preserves the RFD-peak invariant. -/
theorem calculateRFD_peakRFDOk (dm : DataManager) (t f : ℚ) (h : peakRFDOk dm) :
    peakRFDOk (dm.calculateRFD t f) := by
  unfold peakRFDOk at h
  unfold calculateRFD
  split
  · unfold peakRFDOk
    dsimp only
    simp only [List.map_append, List.map_cons, List.map_nil, List.foldl_append,
      List.foldl_cons, List.foldl_nil]
    rw [← h, max_eq_left]
    rw [h]
    exact le_foldl_max _ 0
  · unfold peakRFDOk
    dsimp only
    generalize (match dm.rfdHistory.getLast? with
      | some prev =>
        dm.rfdSmoothingFactor * rawRFD dm.forceHistory t f dm.rfdWindow
          + (1 - dm.rfdSmoothingFactor) * prev.rfd
      | none => rawRFD dm.forceHistory t f dm.rfdWindow) = s
    simp only [List.map_append, List.map_cons, List.map_nil, List.foldl_append,
      List.foldl_cons, List.foldl_nil]
    rw [← h, ifGt_eq_max]

/-- An `addForceDataPoint` call preserves the RFD-peak invariant. -/
theorem addForceDataPoint_peakRFDOk (dm : DataManager) (now f : ℚ) (h : peakRFDOk dm) :
    peakRFDOk ((dm.addForceDataPoint now f).1) := by
  unfold addForceDataPoint
  split
  · dsimp only
    exact calculateRFD_peakRFDOk _ _ _ h
  · exact h

/-- Per-sample processing preserves the RFD-peak invariant. -/
theorem processSample_peakRFDOk (dm : DataManager) (now f : ℚ) (h : peakRFDOk dm) :
    peakRFDOk (dm.processSample now f) := by
  unfold processSample
  exact addForceDataPoint_peakRFDOk _ _ _ h

/-- Folding a list of samples accumulates `peakForce` as a running max. -/
theorem foldl_processSample_peakForce (samples : List (ℚ × ℚ)) (dm : DataManager) :
    (samples.foldl (fun s p => s.processSample p.1 p.2) dm).peakForce
      = samples.foldl (fun m p => max m p.2) dm.peakForce := by
  induction samples generalizing dm with
  | nil => rfl
  | cons p rest ih =>
    simp only [List.foldl_cons]
    rw [ih, processSample_peakForce]

/-- Folding a list of samples preserves the RFD-peak invariant. -/
theorem foldl_processSample_peakRFDOk (samples : List (ℚ × ℚ)) (dm : DataManager)
    (h : peakRFDOk dm) :
    peakRFDOk (samples.foldl (fun s p => s.processSample p.1 p.2) dm) := by
  induction samples generalizing dm with
  | nil => exact h
  | cons p rest ih =>
    simp only [List.foldl_cons]
    exact ih _ (processSample_peakRFDOk _ _ _ h)

/-- Per-sample processing either leaves `rfdHistory` alone (not recording)
or appends exactly one point. -/
theorem processSample_rfdHistory (dm : DataManager) (now f : ℚ) :
    (dm.processSample now f).rfdHistory = dm.rfdHistory ∨
    ∃ q, (dm.processSample now f).rfdHistory = dm.rfdHistory ++ [q] := by
  unfold processSample addForceDataPoint
  split
  · dsimp only
    obtain ⟨x, hx⟩ :=
      calculateRFD_rfdHistory
        { dm.updateForce f with forceHistory :=
            (dm.updateForce f).forceHistory ++
              [⟨(now - (dm.updateForce f).recordingStartTime) / 1000, f⟩] }
        ((now - (dm.updateForce f).recordingStartTime) / 1000) f
    right
    exact ⟨_, hx⟩
  · left; rfl

/-- Per-sample processing keeps a non-empty `rfdHistory` non-empty and
preserves its first entry. -/
theorem processSample_rfdHead (dm : DataManager) (now f : ℚ)
    (hne : dm.rfdHistory ≠ []) :
    (dm.processSample now f).rfdHistory.head? = dm.rfdHistory.head? ∧
    (dm.processSample now f).rfdHistory ≠ [] := by
  rcases processSample_rfdHistory dm now f with h | ⟨q, h⟩
  · rw [h]; exact ⟨rfl, hne⟩
  · rw [h]
    cases hl : dm.rfdHistory with
    | nil => exact absurd hl hne
    | cons a l => simp

/-- Folding samples preserves the first `rfdHistory` entry once one exists. -/
theorem foldl_processSample_rfdHead (samples : List (ℚ × ℚ)) (dm : DataManager)
    (hne : dm.rfdHistory ≠ []) :
    (samples.foldl (fun s p => s.processSample p.1 p.2) dm).rfdHistory.head?
        = dm.rfdHistory.head? ∧
    (samples.foldl (fun s p => s.processSample p.1 p.2) dm).rfdHistory ≠ [] := by
  induction samples generalizing dm with
  | nil => exact ⟨rfl, hne⟩
  | cons p rest ih =>
    simp only [List.foldl_cons]
    obtain ⟨h1, h2⟩ := processSample_rfdHead dm p.1 p.2 hne
    obtain ⟨h3, h4⟩ := ih _ h2
    exact ⟨h3.trans h1, h4⟩

/-- The first sample after a fresh `startRecording` records the RFD point
`(elapsed, 0)`. -/
theorem firstSample_rfdHistory (dm : DataManager) (now0 now f : ℚ) :
    ((dm.startRecording now0).processSample now f).rfdHistory
      = [⟨(now - now0) / 1000, 0⟩] := by
  simp [processSample, addForceDataPoint, updateForce, startRecording, calculateRFD]

/-- C1 (amended): for a session begun with `startRecording` followed by any
sequence of per-sample `updateForce` + `addForceDataPoint` calls,
`peakForce` equals the running maximum of the *prior* peak (which
`startRecording` does not clear) and all supplied forces — so an
all-negative sequence leaves `peakForce` at its old value (0 for a fresh
manager), not at the sequence maximum — while `peakRFD` equals the fold of
`max` over all emitted smoothed RFD values seeded with 0, which *is* the
maximum of the emitted values because the first emitted value of any
non-empty session is 0. -/
theorem peaks_after_recording (dm : DataManager) (now0 : ℚ)
    (samples : List (ℚ × ℚ)) :
    (samples.foldl (fun s p => s.processSample p.1 p.2)
        (dm.startRecording now0)).peakForce
      = samples.foldl (fun m p => max m p.2) dm.peakForce ∧
    (samples.foldl (fun s p => s.processSample p.1 p.2)
        (dm.startRecording now0)).peakRFD
      = (((samples.foldl (fun s p => s.processSample p.1 p.2)
            (dm.startRecording now0)).rfdHistory).map (fun p => p.rfd)).foldl max 0 ∧
    (samples ≠ [] →
      ∃ t0, (samples.foldl (fun s p => s.processSample p.1 p.2)
          (dm.startRecording now0)).rfdHistory.head? = some ⟨t0, 0⟩) := by
  refine ⟨?_, ?_, ?_⟩
  · rw [foldl_processSample_peakForce]
    rfl
  · exact foldl_processSample_peakRFDOk samples _ rfl
  · intro hne
    cases samples with
    | nil => exact absurd rfl hne
    | cons s0 rest =>
      simp only [List.foldl_cons]
      have h1 := firstSample_rfdHistory dm now0 s0.1 s0.2
      have h2 :=
        foldl_processSample_rfdHead rest
          ((dm.startRecording now0).processSample s0.1 s0.2)
          (by rw [h1]; simp)
      refine ⟨(s0.1 - now0) / 1000, ?_⟩
      rw [h2.1, h1]
      rfl

/-- C1, counterexample: a fresh recording fed the single (all-negative)
force sequence `[-1]` ends with `peakForce = 0`, while the maximum over the
supplied forces is `-1`. -/
theorem peaks_negative_cex :
    ((DataManager.init.startRecording 0).processSample 0 (-1)).peakForce = 0 ∧
    (((DataManager.init.startRecording 0).processSample 0 (-1)).peakForce : ℚ) ≠ -1 := by
  constructor <;>
    norm_num [processSample, addForceDataPoint, updateForce, startRecording,
      init, calculateRFD]

/-- C1, witness: a fresh recording fed samples of forces `2` then `1`
(non-empty list) satisfies the amended peak equalities and has first
emitted RFD value `0`. -/
theorem peaks_after_recording_witness :
    (([((0 : ℚ), (2 : ℚ)), (1000, 1)] : List (ℚ × ℚ)) ≠ []) ∧
    ((([((0 : ℚ), (2 : ℚ)), (1000, 1)] : List (ℚ × ℚ)).foldl
          (fun s p => s.processSample p.1 p.2)
          (DataManager.init.startRecording 0)).peakForce
        = ([((0 : ℚ), (2 : ℚ)), (1000, 1)] : List (ℚ × ℚ)).foldl
            (fun m p => max m p.2) DataManager.init.peakForce) ∧
    ∃ t0, ((([((0 : ℚ), (2 : ℚ)), (1000, 1)] : List (ℚ × ℚ)).foldl
        (fun s p => s.processSample p.1 p.2)
        (DataManager.init.startRecording 0)).rfdHistory.head? = some ⟨t0, 0⟩) := by
  have h := peaks_after_recording DataManager.init 0 [((0 : ℚ), (2 : ℚ)), (1000, 1)]
  exact ⟨by simp, h.1, h.2.2 (by simp)⟩

/-- Helper: multiplying by a constant within `1/100000` of `1` moves a
value by at most a `1/100000` relative error. -/
theorem roundtrip_close (c x : ℚ) (hc : |c - 1| ≤ 1 / 100000) :
    |x * c - x| ≤ |x| / 100000 := by
  have e : x * c - x = x * (c - 1) := by ring
  rw [e, abs_mul]
  calc |x| * |c - 1| ≤ |x| * (1 / 100000) :=
        mul_le_mul_of_nonneg_left hc (abs_nonneg x)
    _ = |x| / 100000 := by ring

/-- Helper: the kg-lbs conversion constants compose to within `1e-5` of 1. -/
theorem kgToLbs_lbsToKg_close : |kgToLbs * lbsToKg - 1| ≤ 1 / 100000 := by
  rw [abs_le]
  constructor <;> norm_num [kgToLbs, lbsToKg]

/-- Helper: the kg-N conversion constants compose to within `1e-5` of 1. -/
theorem kgToN_nToKg_close : |kgToN * nToKg - 1| ≤ 1 / 100000 := by
  rw [abs_le]
  constructor <;> norm_num [kgToN, nToKg]

/-- Helper: the lbs-N conversion constants compose to within `1e-5` of 1. -/
theorem lbsToN_nToLbs_close : |lbsToN * nToLbs - 1| ≤ 1 / 100000 := by
  rw [abs_le]
  constructor <;> norm_num [lbsToN, nToLbs]

/-- Helper: the two successive unit changes kg to lbs to kg multiply
`maxForceRange`, `targetForce` and every stored history value by
`kgToLbs * lbsToKg`, leaving all times unchanged. -/
theorem changeUnit_lbs_kg_fields (dm : DataManager) (h : dm.weightUnit = WUnit.kg) :
    ((dm.changeUnit .lbs).changeUnit .kg).maxForceRange
        = dm.maxForceRange * kgToLbs * lbsToKg ∧
    ((dm.changeUnit .lbs).changeUnit .kg).targetForce
        = dm.targetForce * kgToLbs * lbsToKg ∧
    ((dm.changeUnit .lbs).changeUnit .kg).forceHistory
        = dm.forceHistory.map (fun p => ⟨p.time, p.force * kgToLbs * lbsToKg⟩) ∧
    ((dm.changeUnit .lbs).changeUnit .kg).rfdHistory
        = dm.rfdHistory.map (fun p => ⟨p.time, p.rfd * kgToLbs * lbsToKg⟩) := by
  have hif1 : ∀ (l : List ForcePoint) (g : ForcePoint → ForcePoint),
      (if l.length > 0 then l.map g else l) = l.map g := by
    intro l g; cases l <;> simp
  have hif2 : ∀ (l : List RFDPoint) (g : RFDPoint → RFDPoint),
      (if l.length > 0 then l.map g else l) = l.map g := by
    intro l g; cases l <;> simp
  refine ⟨?_, ?_, ?_, ?_⟩
  · simp [changeUnit, h, convertValue, mul_assoc]
  · simp [changeUnit, h, convertValue, mul_assoc]
  · rcases hfh : dm.forceHistory with _ | ⟨p, l⟩
    · simp [changeUnit, h, convertValue, hfh]
    · simp [changeUnit, h, convertValue, hfh, List.map_map, Function.comp,
        mul_assoc]
  · rcases hfh : dm.rfdHistory with _ | ⟨p, l⟩
    · simp [changeUnit, h, convertValue, hfh]
    · simp [changeUnit, h, convertValue, hfh, List.map_map, Function.comp,
        mul_assoc]

/-- C7: for every value and every ordered pair of distinct units, the
round-trip conversion lands within relative tolerance `1/100000` of the
original, and changing the unit kg to lbs and back to kg restores
`maxForceRange`, `targetForce` and every stored history point (time
exactly, value within the same tolerance). -/
theorem convert_changeUnit_roundtrip :
    (∀ (x : ℚ) (a b : WUnit), a ≠ b →
      |convertValue (convertValue x a b) b a - x| ≤ |x| / 100000) ∧
    (∀ dm : DataManager, dm.weightUnit = WUnit.kg →
      |((dm.changeUnit .lbs).changeUnit .kg).maxForceRange - dm.maxForceRange|
          ≤ |dm.maxForceRange| / 100000 ∧
      |((dm.changeUnit .lbs).changeUnit .kg).targetForce - dm.targetForce|
          ≤ |dm.targetForce| / 100000 ∧
      (∀ (i : ℕ) (p q : ForcePoint),
        ((dm.changeUnit .lbs).changeUnit .kg).forceHistory[i]? = some p →
        dm.forceHistory[i]? = some q →
        p.time = q.time ∧ |p.force - q.force| ≤ |q.force| / 100000) ∧
      (∀ (i : ℕ) (p q : RFDPoint),
        ((dm.changeUnit .lbs).changeUnit .kg).rfdHistory[i]? = some p →
        dm.rfdHistory[i]? = some q →
        p.time = q.time ∧ |p.rfd - q.rfd| ≤ |q.rfd| / 100000)) := by
  constructor
  · intro x a b hab
    cases a <;> cases b <;> try exact absurd rfl hab
    · show |x * kgToLbs * lbsToKg - x| ≤ |x| / 100000
      rw [mul_assoc]
      exact roundtrip_close _ _ kgToLbs_lbsToKg_close
    · show |x * kgToN * nToKg - x| ≤ |x| / 100000
      rw [mul_assoc]
      exact roundtrip_close _ _ kgToN_nToKg_close
    · show |x * lbsToKg * kgToLbs - x| ≤ |x| / 100000
      rw [mul_assoc, mul_comm lbsToKg kgToLbs]
      exact roundtrip_close _ _ kgToLbs_lbsToKg_close
    · show |x * lbsToN * nToLbs - x| ≤ |x| / 100000
      rw [mul_assoc]
      exact roundtrip_close _ _ lbsToN_nToLbs_close
    · show |x * nToKg * kgToN - x| ≤ |x| / 100000
      rw [mul_assoc, mul_comm nToKg kgToN]
      exact roundtrip_close _ _ kgToN_nToKg_close
    · show |x * nToLbs * lbsToN - x| ≤ |x| / 100000
      rw [mul_assoc, mul_comm nToLbs lbsToN]
      exact roundtrip_close _ _ lbsToN_nToLbs_close
  · intro dm h
    obtain ⟨e1, e2, e3, e4⟩ := changeUnit_lbs_kg_fields dm h
    refine ⟨?_, ?_, ?_, ?_⟩
    · rw [e1, mul_assoc]
      exact roundtrip_close _ _ kgToLbs_lbsToKg_close
    · rw [e2, mul_assoc]
      exact roundtrip_close _ _ kgToLbs_lbsToKg_close
    · intro i p q hp hq
      rw [e3] at hp
      rw [List.getElem?_map, hq] at hp
      simp only [Option.map_some'] at hp
      obtain rfl : ({ time := q.time, force := q.force * kgToLbs * lbsToKg } : ForcePoint) = p :=
        Option.some.inj hp
      refine ⟨rfl, ?_⟩
      show |q.force * kgToLbs * lbsToKg - q.force| ≤ |q.force| / 100000
      rw [mul_assoc]
      exact roundtrip_close _ _ kgToLbs_lbsToKg_close
    · intro i p q hp hq
      rw [e4] at hp
      rw [List.getElem?_map, hq] at hp
      simp only [Option.map_some'] at hp
      obtain rfl : ({ time := q.time, rfd := q.rfd * kgToLbs * lbsToKg } : RFDPoint) = p :=
        Option.some.inj hp
      refine ⟨rfl, ?_⟩
      show |q.rfd * kgToLbs * lbsToKg - q.rfd| ≤ |q.rfd| / 100000
      rw [mul_assoc]
      exact roundtrip_close _ _ kgToLbs_lbsToKg_close

/-- C7, witness: the round-trip of `2` through kg and lbs, and the
kg-lbs-kg unit change on the initial manager's `maxForceRange`. -/
theorem convert_changeUnit_roundtrip_witness :
    (WUnit.kg ≠ WUnit.lbs) ∧
    |convertValue (convertValue 2 .kg .lbs) .lbs .kg - 2| ≤ |(2 : ℚ)| / 100000 ∧
    (DataManager.init.weightUnit = WUnit.kg) ∧
    |((DataManager.init.changeUnit .lbs).changeUnit .kg).maxForceRange
        - DataManager.init.maxForceRange|
      ≤ |DataManager.init.maxForceRange| / 100000 :=
  ⟨by decide, convert_changeUnit_roundtrip.1 2 _ _ (by decide), rfl,
    (convert_changeUnit_roundtrip.2 DataManager.init rfl).1⟩

/-- C5: in every reachable `DataManager` state, `forceHistory` and
`rfdHistory` have the same length and carry the same time at every index —
the 1:1 correspondence is preserved by every operation (`startRecording`,
`stopRecording`, `addForceDataPoint`, `updateForce`, `reset`,
`changeUnit`). -/
theorem histories_aligned (ops : List Op) :
    (runOps ops).forceHistory.length = (runOps ops).rfdHistory.length ∧
    ∀ i : ℕ,
      ((runOps ops).forceHistory[i]?).map (fun p => p.time)
        = ((runOps ops).rfdHistory[i]?).map (fun p => p.time) := by
  have hal : histAligned (runOps ops) := by
    apply histAligned_foldl
    simp [histAligned, init]
  unfold histAligned at hal
  constructor
  · have := congrArg List.length hal
    simpa using this
  · intro i
    have := congrArg (fun l => l[i]?) hal
    simpa [List.getElem?_map] using this

/-- Helper: one unfolding step of the trapezoidal sum. -/
theorem trapSum_cons_cons (p q : ForcePoint) (rest : List ForcePoint) :
    trapSum (p :: q :: rest)
      = (q.force + p.force) / 2 * (q.time - p.time) + trapSum (q :: rest) := rfl

/-- Helper: the fold in `getImpulse` computes the trapezoidal sum on top of
its accumulator. -/
theorem impulse_foldl_eq (l : List ForcePoint) :
    ∀ acc : ℚ,
      ((l.zip l.tail).foldl
        (fun acc2 pq =>
          let dt := pq.2.time - pq.1.time
          let avgForce := (pq.2.force + pq.1.force) / 2
          acc2 + avgForce * dt) acc)
        = acc + trapSum l := by
  induction l with
  | nil => intro acc; simp [trapSum]
  | cons p l ih =>
    intro acc
    cases l with
    | nil => simp [trapSum]
    | cons q rest =>
      simp only [List.tail_cons] at ih ⊢
      simp only [List.zip_cons_cons, List.foldl_cons]
      rw [ih, trapSum_cons_cons]
      ring

/-- Helper: `getImpulse` equals the trapezoidal sum of the whole history. -/
theorem getImpulse_eq_trapSum (dm : DataManager) :
    dm.getImpulse = trapSum dm.forceHistory := by
  unfold getImpulse
  split
  · next hlen =>
    rcases hl : dm.forceHistory with _ | ⟨p, _ | ⟨q, rest⟩⟩
    · rfl
    · rfl
    · rw [hl] at hlen
      simp at hlen
  · rw [impulse_foldl_eq, zero_add]

/-- Helper: the trapezoidal sum of a constant-force sample list telescopes
to force times the span of the time stamps. -/
theorem trapSum_constForce (ts : List ℚ) :
    ∀ t F : ℚ,
      trapSum ((t :: ts).map (fun s => (⟨s, F⟩ : ForcePoint)))
        = F * (ts.getLastD t - t) := by
  induction ts with
  | nil => intro t F; simp [trapSum]
  | cons u us ih =>
    intro t F
    simp only [List.map_cons]
    rw [trapSum_cons_cons]
    have ihu := ih u F
    simp only [List.map_cons] at ihu
    rw [ihu, List.getLastD_cons]
    dsimp only
    ring

/-- Helper: the trapezoidal sum of an evenly sampled constant-force history
is force times total duration. -/
theorem trapSum_evenConst (N : ℕ) (t0 d F : ℚ) :
    trapSum (evenConstHistory N t0 d F) = F * (N * d) := by
  have hsplit : evenConstHistory N t0 d F
      = ((List.range (N + 1)).map (fun i : ℕ => t0 + (i : ℚ) * d)).map
          (fun t => (⟨t, F⟩ : ForcePoint)) := by
    unfold evenConstHistory
    rw [List.map_map]
    rfl
  have hr : (List.range (N + 1)).map (fun i : ℕ => t0 + (i : ℚ) * d)
      = t0 :: ((List.range N).map (fun i : ℕ => t0 + d + (i : ℚ) * d)) := by
    rw [List.range_succ_eq_map, List.map_cons, List.map_map]
    congr 1
    · norm_num
    · apply List.map_congr_left
      intro i _
      simp only [Function.comp]
      push_cast
      ring
  rw [hsplit, hr, trapSum_constForce]
  congr 1
  cases N with
  | zero => simp
  | succ n =>
    rw [List.range_succ, List.map_append, List.map_cons, List.map_nil,
      List.getLastD_concat]
    push_cast
    ring

/-- C8: `getImpulse` returns exactly the trapezoidal sum over consecutive
samples, returns `0` for histories of fewer than 2 points, and on an evenly
sampled constant-force history of force `F` over total duration `N * d` it
returns exactly `F * (N * d)`. -/
theorem getImpulse_spec :
    (∀ dm : DataManager, dm.getImpulse = trapSum dm.forceHistory) ∧
    (∀ dm : DataManager, dm.forceHistory.length < 2 → dm.getImpulse = 0) ∧
    (∀ (N : ℕ) (t0 d F : ℚ) (dm : DataManager),
      dm.forceHistory = evenConstHistory N t0 d F →
      dm.getImpulse = F * (N * d)) := by
  refine ⟨getImpulse_eq_trapSum, ?_, ?_⟩
  · intro dm hlen
    unfold getImpulse
    rw [if_pos (by omega)]
  · intro N t0 d F dm h
    rw [getImpulse_eq_trapSum, h, trapSum_evenConst]

/-- C8, witness: force `7` sampled at times `0, 1, 2, 3` yields impulse
`7 * 3`, and the empty initial history yields `0`. -/
theorem getImpulse_spec_witness :
    (evenState.forceHistory = evenConstHistory 3 0 1 7) ∧
    evenState.getImpulse = 7 * (((3 : ℕ) : ℚ) * 1) ∧
    (DataManager.init.forceHistory.length < 2) ∧
    DataManager.init.getImpulse = 0 :=
  ⟨rfl, getImpulse_spec.2.2 3 0 1 7 evenState rfl,
    by norm_num [DataManager.init],
    getImpulse_spec.2.1 DataManager.init (by norm_num [DataManager.init])⟩

/-- Helper: the peak-scan fold stays put when no value strictly exceeds the
accumulator. -/
theorem peakFold_no_update {α : Type} (val tim : α → ℚ) :
    ∀ (l : List α) (b t : ℚ), (∀ p ∈ l, val p ≤ b) →
      l.foldl (fun acc p => if val p > acc.1 then (val p, tim p) else acc) (b, t)
        = (b, t) := by
  intro l
  induction l with
  | nil => intro b t _; rfl
  | cons q rest ih =>
    intro b t h
    simp only [List.foldl_cons]
    rw [if_neg (show ¬ val q > (b, t).1 from not_lt.mpr (h q (List.mem_cons_self q rest)))]
    exact ih b t (fun p hp => h p (List.mem_cons_of_mem q hp))

/-- Helper: when some value reaches an upper bound `m` strictly above the
seed, the peak-scan fold returns `m` paired with the time of the first
point attaining it. -/
theorem peakFold_first_max {α : Type} (val tim : α → ℚ) :
    ∀ (l : List α) (m : ℚ) (p : α) (b t : ℚ),
      b < m → (∀ q ∈ l, val q ≤ m) →
      l.find? (fun q => decide (m ≤ val q)) = some p →
      l.foldl (fun acc q => if val q > acc.1 then (val q, tim q) else acc) (b, t)
        = (m, tim p) := by
  intro l
  induction l with
  | nil => intro m p b t _ _ hf; simp at hf
  | cons q rest ih =>
    intro m p b t hb hub hf
    by_cases hq : m ≤ val q
    · have hqm : val q = m := le_antisymm (hub q (List.mem_cons_self q rest)) hq
      have hpq : q = p := by
        rw [List.find?_cons_of_pos _ (by simpa using hq)] at hf
        exact Option.some.inj hf
      subst hpq
      simp only [List.foldl_cons]
      rw [if_pos (show val q > (b, t).1 from hqm ▸ hb), hqm]
      exact peakFold_no_update val tim rest m (tim q)
        (fun r hr => hub r (List.mem_cons_of_mem q hr))
    · have hf2 : rest.find? (fun r => decide (m ≤ val r)) = some p := by
        rwa [List.find?_cons_of_neg _ (by simpa using hq)] at hf
      simp only [List.foldl_cons]
      by_cases hgt : val q > b
      · rw [if_pos (show val q > (b, t).1 from hgt)]
        exact ih m p (val q) (tim q) (not_le.mp hq)
          (fun r hr => hub r (List.mem_cons_of_mem q hr)) hf2
      · rw [if_neg (show ¬ val q > (b, t).1 from hgt)]
        exact ih m p b t hb (fun r hr => hub r (List.mem_cons_of_mem q hr)) hf2

/-- C9 (amended): `getTimeToPeak` (resp. `getTimeToPeakRFD`) returns the
time of the chronologically first point achieving the series maximum
whenever that maximum is positive (ties keep the first); when every value
is non-positive the scan's zero-initialised accumulator never updates and
the result is `0`, regardless of where the actual maximum sits. -/
theorem timeToPeak_first_max :
    (∀ (dm : DataManager) (m : ℚ) (p : ForcePoint),
      0 < m → (∀ q ∈ dm.forceHistory, q.force ≤ m) →
      dm.forceHistory.find? (fun q => decide (m ≤ q.force)) = some p →
      dm.getTimeToPeak = p.time) ∧
    (∀ dm : DataManager, (∀ q ∈ dm.forceHistory, q.force ≤ 0) →
      dm.getTimeToPeak = 0) ∧
    (∀ (dm : DataManager) (m : ℚ) (p : RFDPoint),
      0 < m → (∀ q ∈ dm.rfdHistory, q.rfd ≤ m) →
      dm.rfdHistory.find? (fun q => decide (m ≤ q.rfd)) = some p →
      dm.getTimeToPeakRFD = p.time) ∧
    (∀ dm : DataManager, (∀ q ∈ dm.rfdHistory, q.rfd ≤ 0) →
      dm.getTimeToPeakRFD = 0) := by
  refine ⟨?_, ?_, ?_, ?_⟩
  · intro dm m p hm hub hf
    unfold getTimeToPeak
    have hne : ¬ dm.forceHistory.length = 0 := by
      intro h0
      rw [List.length_eq_zero] at h0
      rw [h0] at hf
      simp at hf
    rw [if_neg hne,
      peakFold_first_max (fun q => q.force) (fun q => q.time)
        dm.forceHistory m p 0 0 hm hub hf]
  · intro dm h
    unfold getTimeToPeak
    split
    · rfl
    · rw [peakFold_no_update (fun q => q.force) (fun q => q.time)
        dm.forceHistory 0 0 h]
  · intro dm m p hm hub hf
    unfold getTimeToPeakRFD
    have hne : ¬ dm.rfdHistory.length = 0 := by
      intro h0
      rw [List.length_eq_zero] at h0
      rw [h0] at hf
      simp at hf
    rw [if_neg hne,
      peakFold_first_max (fun q => q.rfd) (fun q => q.time)
        dm.rfdHistory m p 0 0 hm hub hf]
  · intro dm h
    unfold getTimeToPeakRFD
    split
    · rfl
    · rw [peakFold_no_update (fun q => q.rfd) (fun q => q.time)
        dm.rfdHistory 0 0 h]

/-- C9, counterexample: for a history whose only point is `(time 5,
force -3)` the series maximum `-3` is first achieved at time `5`, yet
`getTimeToPeak` returns `0`: the zero-initialised strict scan never
updates on a non-positive maximum. -/
theorem timeToPeak_negative_cex :
    negPeakState.getTimeToPeak = 0 ∧
    (∀ q ∈ negPeakState.forceHistory, q.force ≤ -3) ∧
    negPeakState.forceHistory.find? (fun q => decide ((-3 : ℚ) ≤ q.force))
      = some ⟨5, -3⟩ ∧
    ((0 : ℚ) ≠ 5) := by
  refine ⟨?_, ?_, ?_, by norm_num⟩
  · norm_num [negPeakState, DataManager.init, DataManager.getTimeToPeak]
  · intro q hq
    simp only [negPeakState, DataManager.init, List.mem_singleton] at hq
    subst hq
    norm_num
  · norm_num [negPeakState, DataManager.init, List.find?]

/-- C9, witness: with history forces `2, 5, 5` peaking first at time `3`,
`getTimeToPeak` returns `3` (the first of the tied maxima). -/
theorem timeToPeak_first_max_witness :
    ((0 : ℚ) < 5) ∧
    (∀ q ∈ tiedPeakState.forceHistory, q.force ≤ 5) ∧
    tiedPeakState.forceHistory.find? (fun q => decide ((5 : ℚ) ≤ q.force))
      = some ⟨3, 5⟩ ∧
    tiedPeakState.getTimeToPeak = (⟨3, 5⟩ : ForcePoint).time := by
  have hub : ∀ q ∈ tiedPeakState.forceHistory, q.force ≤ 5 := by
    intro q hq
    simp only [tiedPeakState, DataManager.init, List.mem_cons,
      List.not_mem_nil, or_false] at hq
    rcases hq with rfl | rfl | rfl <;> norm_num
  have hf : tiedPeakState.forceHistory.find? (fun q => decide ((5 : ℚ) ≤ q.force))
      = some ⟨3, 5⟩ := by
    norm_num [tiedPeakState, DataManager.init, List.find?]
  exact ⟨by norm_num, hub, hf,
    timeToPeak_first_max.1 tiedPeakState 5 ⟨3, 5⟩ (by norm_num) hub hf⟩

/-- Helper: a 4-byte little-endian read succeeds whenever its window lies
inside the buffer. -/
theorem getU32le_isSome (b : List ℕ) (i : ℕ) (h : i + 4 ≤ b.length) :
    ∃ v, getU32le b i = some v := by
  unfold getU32le
  rw [List.get?_eq_get (by omega : i < b.length),
    List.get?_eq_get (by omega : i + 1 < b.length),
    List.get?_eq_get (by omega : i + 2 < b.length),
    List.get?_eq_get (by omega : i + 3 < b.length)]
  exact ⟨_, rfl⟩

/-- Helper: `decodeBatch` always succeeds and returns exactly the prefix of
declared samples whose full 8-byte windows fit in the buffer, each read at
its wire offset. -/
theorem decodeBatch_spec (b : List ℕ) :
    ∀ count : ℕ, ∃ samples : List Sample,
      decodeBatch b count = some samples ∧
      samples.length = min count ((b.length - 2) / 8) ∧
      (∀ i : ℕ, i < samples.length →
        ∃ s : Sample, samples[i]? = some s ∧
          getU32le b (2 + i * 8) = some s.forceBits ∧
          getU32le b (6 + i * 8) = some s.timestamp) := by
  intro count
  induction count with
  | zero => exact ⟨[], rfl, by simp, by intro i hi; simp at hi⟩
  | succ c ih =>
    obtain ⟨samples, h1, h2, h3⟩ := ih
    have hstep : decodeBatch b (c + 1)
        = (decodeBatch b c).bind (fun samples2 =>
            if 2 + c * 8 + 8 ≤ b.length then
              (getU32le b (2 + c * 8)).bind (fun w =>
                (getU32le b (2 + c * 8 + 4)).bind (fun ts =>
                  some (samples2 ++ [⟨w, ts⟩])))
            else some samples2) := by
      unfold decodeBatch
      rw [List.range_succ, List.foldl_append, List.foldl_cons, List.foldl_nil]
      rfl
    have hiff : 2 + c * 8 + 8 ≤ b.length ↔ c + 1 ≤ (b.length - 2) / 8 := by
      rw [Nat.le_div_iff_mul_le (by norm_num : 0 < 8)]
      omega
    by_cases hfit : 2 + c * 8 + 8 ≤ b.length
    · obtain ⟨w, hw⟩ := getU32le_isSome b (2 + c * 8) (by omega)
      obtain ⟨ts, hts⟩ := getU32le_isSome b (2 + c * 8 + 4) (by omega)
      have hlen : samples.length = c := by
        rw [h2]
        exact min_eq_left (by omega)
      refine ⟨samples ++ [⟨w, ts⟩], ?_, ?_, ?_⟩
      · rw [hstep, h1]
        simp only [Option.bind_eq_bind, Option.some_bind']
        rw [if_pos hfit, hw, hts]
        rfl
      · rw [List.length_append, hlen]
        simp only [List.length_cons, List.length_nil]
        omega
      · intro i hi
        rw [List.length_append, List.length_cons, List.length_nil] at hi
        by_cases hic : i < samples.length
        · obtain ⟨s, hs1, hs2, hs3⟩ := h3 i hic
          refine ⟨s, ?_, hs2, hs3⟩
          rw [List.getElem?_append, if_pos hic]
          exact hs1
        · have hieq : i = samples.length := by omega
          refine ⟨⟨w, ts⟩, ?_, ?_, ?_⟩
          · rw [hieq]
            exact List.getElem?_concat_length samples ⟨w, ts⟩
          · rw [hieq, hlen]
            exact hw
          · rw [hieq, hlen]
            rw [show 6 + c * 8 = 2 + c * 8 + 4 by omega]
            exact hts
    · refine ⟨samples, ?_, ?_, h3⟩
      · rw [hstep, h1]
        simp only [Option.bind_eq_bind, Option.some_bind']
        rw [if_neg hfit]
      · rw [h2]
        have : ¬ c + 1 ≤ (b.length - 2) / 8 := fun hcontra => hfit (hiff.mpr hcontra)
        omega

/-- C3: for every weight-tagged frame of length at least 2 with declared
count `n`, decoding succeeds (never throws) and emits exactly
`min n ((length - 2) / 8)` samples — all `n` when the buffer holds them,
otherwise exactly the prefix whose 8-byte windows fit — each sample being
the little-endian 4-byte force word at offset `2 + 8i` and the
little-endian 4-byte timestamp at offset `6 + 8i`. -/
theorem decode_batched_frames (b : List ℕ) (n : ℕ)
    (h0 : b.get? 0 = some RESPONSE_WEIGHT) (h1 : b.get? 1 = some n) :
    ∃ samples : List Sample,
      handleDataNotification b = some (.weight samples) ∧
      samples.length = min n ((b.length - 2) / 8) ∧
      (2 + 8 * n ≤ b.length → samples.length = n) ∧
      (∀ i : ℕ, i < samples.length →
        ∃ s : Sample, samples[i]? = some s ∧
          getU32le b (2 + i * 8) = some s.forceBits ∧
          getU32le b (6 + i * 8) = some s.timestamp) := by
  have hlen2 : 2 ≤ b.length := by
    rcases List.get?_eq_some.mp h1 with ⟨hb, _⟩
    omega
  obtain ⟨samples, hs1, hs2, hs3⟩ := decodeBatch_spec b n
  refine ⟨samples, ?_, hs2, ?_, hs3⟩
  · unfold handleDataNotification
    rw [if_neg (by omega : ¬ b.length < 1)]
    unfold getU8
    rw [h0]
    simp only [Option.bind_eq_bind, Option.some_bind', if_true]
    rw [if_pos hlen2, h1]
    simp only [Option.bind_eq_bind, Option.some_bind']
    rw [hs1]
    simp only [Option.bind_eq_bind, Option.some_bind']
    rfl
  · intro hall
    rw [hs2]
    have : n ≤ (b.length - 2) / 8 := by
      rw [Nat.le_div_iff_mul_le (by norm_num : 0 < 8)]
      omega
    exact min_eq_left this

/-- C3, witness: the spec's truncated scenario frame (tag 1, declared count
2, one full sample window, 3 garbage bytes) decodes to exactly one sample
without failing. -/
theorem decode_batched_frames_witness :
    truncatedFrame.get? 0 = some RESPONSE_WEIGHT ∧
    truncatedFrame.get? 1 = some 2 ∧
    ∃ samples : List Sample,
      handleDataNotification truncatedFrame = some (.weight samples) ∧
      samples.length = min 2 ((truncatedFrame.length - 2) / 8) ∧
      (2 + 8 * 2 ≤ truncatedFrame.length → samples.length = 2) ∧
      (∀ i : ℕ, i < samples.length →
        ∃ s : Sample, samples[i]? = some s ∧
          getU32le truncatedFrame (2 + i * 8) = some s.forceBits ∧
          getU32le truncatedFrame (6 + i * 8) = some s.timestamp) :=
  ⟨rfl, rfl, decode_batched_frames truncatedFrame 2 rfl rfl⟩

end SWS
